import Mathlib

/-!
Shallow embedding of the `glfw_input` and `filament_imgui` components of the
filament-glfw-imgui repository, together with theorems settling the frozen
claims about them.

Conventions of the embedding:
* C++ `uint64_t` values are modelled as `Nat`; arithmetic that can wrap is
  written with an explicit `% 2 ^ 64`.
* C++ `double` values are modelled as `ℚ`; the `kDoubleInf` sentinel used for
  the mouse position is modelled by `Option ℚ` with `none` standing for the
  infinity sentinel (callbacks always deliver finite coordinates).
* The child handler (`child_` in `Handler<Child>`) is an arbitrary stateful
  object whose only observable effect on the `Handler` is the boolean
  capture decision it returns; that decision is modelled as a field (`cap`)
  carried by each incoming callback.
* `GLFWwindow*` pointers are opaque and never inspected; they are omitted.
-/

namespace glfw_input

/-- GLFW action constant, value from glfw3.h. -/
def GLFW_RELEASE : Int := 0

/-- GLFW action constant, value from glfw3.h. -/
def GLFW_PRESS : Int := 1

/-- GLFW modifier bit, value from glfw3.h. -/
def GLFW_MOD_SHIFT : Nat := 1

/-- GLFW modifier bit, value from glfw3.h. -/
def GLFW_MOD_CONTROL : Nat := 2

/-- GLFW modifier bit, value from glfw3.h. -/
def GLFW_MOD_ALT : Nat := 4

/-- GLFW modifier bit, value from glfw3.h. -/
def GLFW_MOD_SUPER : Nat := 8

/-- GLFW modifier bit, value from glfw3.h. -/
def GLFW_MOD_CAPS_LOCK : Nat := 16

/-- GLFW modifier bit, value from glfw3.h. -/
def GLFW_MOD_NUM_LOCK : Nat := 32

/-- GLFW key code, value from glfw3.h. -/
def GLFW_KEY_CAPS_LOCK : Int := 280

/-- GLFW key code, value from glfw3.h. -/
def GLFW_KEY_NUM_LOCK : Int := 282

/-- GLFW key code, value from glfw3.h. -/
def GLFW_KEY_LEFT_SHIFT : Int := 340

/-- GLFW key code, value from glfw3.h. -/
def GLFW_KEY_LEFT_CONTROL : Int := 341

/-- GLFW key code, value from glfw3.h. -/
def GLFW_KEY_LEFT_ALT : Int := 342

/-- GLFW key code, value from glfw3.h. -/
def GLFW_KEY_LEFT_SUPER : Int := 343

/-- GLFW key code, value from glfw3.h. -/
def GLFW_KEY_RIGHT_SHIFT : Int := 344

/-- GLFW key code, value from glfw3.h. -/
def GLFW_KEY_RIGHT_CONTROL : Int := 345

/-- GLFW key code, value from glfw3.h. -/
def GLFW_KEY_RIGHT_ALT : Int := 346

/-- GLFW key code, value from glfw3.h. -/
def GLFW_KEY_RIGHT_SUPER : Int := 347

/-- GLFW key code, GLFW_KEY_LAST = GLFW_KEY_MENU = 348 in glfw3.h. -/
def GLFW_KEY_LAST : Int := 348

/-- Conversion of a `uint64_t` value to `int64_t` (the implicit conversion in
`PressedEventIndex`'s return statement); two's-complement wrap, as on every
platform the library targets. -/
def toInt64 (n : Nat) : Int :=
  if n % 2 ^ 64 < 2 ^ 63 then ((n % 2 ^ 64 : Nat) : Int)
  else ((n % 2 ^ 64 : Nat) : Int) - 2 ^ 64

/-- Narrowing conversion of an `int64_t` value to the 32-bit `int` (used by
`KeyboardState::Axis` when it stores `PressedEventIndex(...)` into
`const int state_minus/state_plus`); two's-complement wrap. -/
def toInt32 (i : Int) : Int :=
  (i + 2 ^ 31) % 2 ^ 32 - 2 ^ 31

/-- `SetBits` from glfw_input_impl.h: `mask.value |= bits`. Masks are `int`
bitmasks whose set bits all lie below bit 31 for every value the library
feeds them, so `Nat` bitwise or is the exact semantics. -/
def setBits (mask bits : Nat) : Nat := mask ||| bits

/-- `ClearBits` from glfw_input_impl.h: `mask.value &= ~bits`. The `int`
complement is taken within the 32-bit word. -/
def clearBits (mask bits : Nat) : Nat := mask &&& ((2 ^ 32 - 1) ^^^ bits)

/-- `MouseButtonMask::ButtonToBits`: `1 << glfw_mouse_button`. GLFW mouse
buttons are 0 through 7. -/
def ButtonToBits (glfw_mouse_button : Nat) : Nat := 1 <<< glfw_mouse_button

/-- `KeyboardState`: wraps `std::vector<uint64_t> pressed_event_index_`,
which stores the event index at which each key was pressed (0 = released). -/
structure KeyboardState where
  pressed_event_index : List Nat
deriving DecidableEq

/-- The `KeyboardState(int32_t max_key)` constructor: a table of
`max_key + 1` zero entries. -/
def KeyboardState.init (max_key : Nat) : KeyboardState :=
  ⟨List.replicate (max_key + 1) 0⟩

/-- The in-range test `key < pressed_event_index_.size()` of the C++ source:
the `int32_t` key is converted to the unsigned `size_t` by the usual
arithmetic conversions, so a negative key compares as a huge value and fails
the bound check. Net effect on every representable `int32_t`:
`0 ≤ key ∧ key < size`. -/
def KeyboardState.inRange (ks : KeyboardState) (key : Int) : Prop :=
  0 ≤ key ∧ key < (ks.pressed_event_index.length : Int)

instance (ks : KeyboardState) (key : Int) : Decidable (ks.inRange key) :=
  inferInstanceAs (Decidable (_ ∧ _))

/-- The raw `uint64_t` table read performed by `PressedEventIndex`:
`key < pressed_event_index_.size() ? pressed_event_index_[key] : 0`. -/
def KeyboardState.rawEntry (ks : KeyboardState) (key : Int) : Nat :=
  if ks.inRange key then ks.pressed_event_index.getD key.toNat 0 else 0

/-- `KeyboardState::PressedEventIndex`: the raw table read, returned as
`int64_t`. -/
def KeyboardState.PressedEventIndex (ks : KeyboardState) (key : Int) : Int :=
  toInt64 (ks.rawEntry key)

/-- `KeyboardState::IsPressed`: `return PressedEventIndex(key);` converted to
`bool`, i.e. true iff nonzero. -/
def KeyboardState.IsPressed (ks : KeyboardState) (key : Int) : Bool :=
  ks.PressedEventIndex key ≠ 0

/-- `KeyboardState::SetKeyEventIndex`: writes the entry when the key passes
the same (signed/unsigned) bound check, otherwise no state change. -/
def KeyboardState.SetKeyEventIndex (ks : KeyboardState) (key : Int)
    (event_index : Nat) : KeyboardState :=
  if ks.inRange key then ⟨ks.pressed_event_index.set key.toNat event_index⟩
  else ks

/-- `KeyboardState::Axis`: compares the two keys' press indices after the
narrowing conversions `int64_t` (return of `PressedEventIndex`) →
`const int` (32-bit). -/
def KeyboardState.Axis (ks : KeyboardState) (key_minus key_plus : Int) : Int :=
  let state_minus := toInt32 (ks.PressedEventIndex key_minus)
  let state_plus := toInt32 (ks.PressedEventIndex key_plus)
  if state_minus > state_plus then -1
  else if state_plus > state_minus then 1
  else 0

/-- Payload of the `Event` union in glfw_input.h (exactly one member is
active, determined by `Event::type`). -/
inductive EventData where
  | focusData (focused : Int)
  | enterData (entered : Int)
  | cursorPosData (x y xoffset yoffset : ℚ) (buttons : Nat) (mods : Nat)
  | mouseButtonData (button : Nat) (action : Int) (mods : Nat)
  | scrollData (xoffset yoffset : ℚ) (mods : Nat)
  | keyData (key : Int) (scancode : Int) (action : Int) (mods : Nat)
  | charData (c : Nat)
deriving DecidableEq

/-- `Event::kFocus` and friends. -/
def kFocus : Nat := 1

/-- Event type tag, from glfw_input.h. -/
def kEnter : Nat := 2

/-- Event type tag, from glfw_input.h. -/
def kCursorPos : Nat := 4

/-- Event type tag, from glfw_input.h. -/
def kMouseButton : Nat := 8

/-- Event type tag, from glfw_input.h. -/
def kScroll : Nat := 16

/-- Event type tag, from glfw_input.h. -/
def kKey : Nat := 32

/-- Event type tag, from glfw_input.h. -/
def kChar : Nat := 64

/-- The `Event` struct of glfw_input.h (the opaque `GLFWwindow*` field is
omitted, it is never inspected by the library). -/
structure Event where
  type : Nat
  child_wants_capture : Bool
  data : EventData
deriving DecidableEq

/-- The `State` struct of glfw_input.h. `mouse_x = none` models
`mouse_x == kDoubleInf` (the unknown-position sentinel). -/
structure State where
  event_index : Nat
  events : List Event
  keys : KeyboardState
  all_events : List Event
  all_keys : KeyboardState
  mod_keys : Nat
  mouse_x : Option ℚ
  mouse_y : Option ℚ
  mouse_buttons : Nat
deriving DecidableEq

/-- The default-constructed `State`: both keyboard tables sized by
`GLFW_KEY_LAST` (= 348), everything else zero / empty / unknown. -/
def initState : State :=
  ⟨0, [], KeyboardState.init 348, [], KeyboardState.init 348, 0, none, none, 0⟩

/-- One raw GLFW callback delivered to `Handler`, bundled with the capture
decision (`cap`) that the child handler returns for it. The child is an
arbitrary stateful object; its capture decisions are the only way it
influences the `Handler` state, so they enter the model as inputs. -/
inductive Callback where
  | focus (focused : Int) (cap : Bool)
  | enter (entered : Int) (cap : Bool)
  | cursorPos (x y : ℚ) (cap : Bool)
  | mouseButton (button : Nat) (action : Int) (mods : Int) (cap : Bool)
  | scroll (xoffset yoffset : ℚ) (cap : Bool)
  | key (key : Int) (scancode : Int) (action : Int) (mods : Int) (cap : Bool)
  | charCb (c : Nat) (cap : Bool)
deriving DecidableEq

/-- The capture decision carried by a callback. -/
def Callback.cap : Callback → Bool
  | .focus _ c => c
  | .enter _ c => c
  | .cursorPos _ _ c => c
  | .mouseButton _ _ _ c => c
  | .scroll _ _ c => c
  | .key _ _ _ _ c => c
  | .charCb _ c => c

/-- `Handler::OnGlfwWindowFocus`. -/
def OnGlfwWindowFocus (s : State) (focused : Int)
    (child_wants_capture : Bool) : State :=
  let s := { s with event_index := (s.event_index + 1) % 2 ^ 64 }
  let s := if focused ≠ 0 then { s with mouse_x := none, mouse_y := none }
           else s
  let e : Event := ⟨kFocus, child_wants_capture, .focusData focused⟩
  let s := if ¬child_wants_capture then { s with events := s.events ++ [e] }
           else s
  { s with all_events := s.all_events ++ [e] }

/-- `Handler::OnGlfwCursorEnter`. -/
def OnGlfwCursorEnter (s : State) (entered : Int)
    (child_wants_capture : Bool) : State :=
  let s := { s with event_index := (s.event_index + 1) % 2 ^ 64 }
  let e : Event := ⟨kEnter, child_wants_capture, .enterData entered⟩
  let s := if ¬child_wants_capture then { s with events := s.events ++ [e] }
           else s
  { s with all_events := s.all_events ++ [e] }

/-- `Handler::OnGlfwCursorPos`: the offsets stay 0 unless both stored
coordinates differ from the `kDoubleInf` sentinel. -/
def OnGlfwCursorPos (s : State) (x y : ℚ)
    (child_wants_capture : Bool) : State :=
  let s := { s with event_index := (s.event_index + 1) % 2 ^ 64 }
  let offsets : ℚ × ℚ :=
    match s.mouse_x, s.mouse_y with
    | some mx, some my => (x - mx, y - my)
    | _, _ => (0, 0)
  let e : Event := ⟨kCursorPos, child_wants_capture,
    .cursorPosData x y offsets.1 offsets.2 s.mouse_buttons s.mod_keys⟩
  let s := { s with mouse_x := some x, mouse_y := some y }
  let s := if ¬child_wants_capture then { s with events := s.events ++ [e] }
           else s
  { s with all_events := s.all_events ++ [e] }

/-- `Handler::OnGlfwMouseButton`. -/
def OnGlfwMouseButton (s : State) (button : Nat) (action : Int) (_mods : Int)
    (child_wants_capture : Bool) : State :=
  let s := { s with event_index := (s.event_index + 1) % 2 ^ 64 }
  let s :=
    if action = GLFW_PRESS then
      { s with mouse_buttons := setBits s.mouse_buttons (ButtonToBits button) }
    else if action = GLFW_RELEASE then
      { s with
        mouse_buttons := clearBits s.mouse_buttons (ButtonToBits button) }
    else s
  let e : Event := ⟨kMouseButton, child_wants_capture,
    .mouseButtonData button action s.mod_keys⟩
  let s := if ¬child_wants_capture then { s with events := s.events ++ [e] }
           else s
  { s with all_events := s.all_events ++ [e] }

/-- `Handler::OnGlfwScroll`. -/
def OnGlfwScroll (s : State) (xoffset yoffset : ℚ)
    (child_wants_capture : Bool) : State :=
  let s := { s with event_index := (s.event_index + 1) % 2 ^ 64 }
  let e : Event := ⟨kScroll, child_wants_capture,
    .scrollData xoffset yoffset s.mod_keys⟩
  let s := if ¬child_wants_capture then { s with events := s.events ++ [e] }
           else s
  { s with all_events := s.all_events ++ [e] }

/-- The modifier-key `switch` of `Handler::OnGlfwKey`. -/
def updateModKeys (mod_keys : Nat) (key : Int) (action : Int) : Nat :=
  if key = GLFW_KEY_LEFT_SHIFT ∨ key = GLFW_KEY_RIGHT_SHIFT then
    if action = GLFW_PRESS then setBits mod_keys GLFW_MOD_SHIFT
    else if action = GLFW_RELEASE then clearBits mod_keys GLFW_MOD_SHIFT
    else mod_keys
  else if key = GLFW_KEY_LEFT_CONTROL ∨ key = GLFW_KEY_RIGHT_CONTROL then
    if action = GLFW_PRESS then setBits mod_keys GLFW_MOD_CONTROL
    else if action = GLFW_RELEASE then clearBits mod_keys GLFW_MOD_CONTROL
    else mod_keys
  else if key = GLFW_KEY_LEFT_ALT ∨ key = GLFW_KEY_RIGHT_ALT then
    if action = GLFW_PRESS then setBits mod_keys GLFW_MOD_ALT
    else if action = GLFW_RELEASE then clearBits mod_keys GLFW_MOD_ALT
    else mod_keys
  else if key = GLFW_KEY_LEFT_SUPER ∨ key = GLFW_KEY_RIGHT_SUPER then
    if action = GLFW_PRESS then setBits mod_keys GLFW_MOD_SUPER
    else if action = GLFW_RELEASE then clearBits mod_keys GLFW_MOD_SUPER
    else mod_keys
  else if key = GLFW_KEY_NUM_LOCK then
    if action = GLFW_PRESS then setBits mod_keys GLFW_MOD_NUM_LOCK
    else if action = GLFW_RELEASE then clearBits mod_keys GLFW_MOD_NUM_LOCK
    else mod_keys
  else if key = GLFW_KEY_CAPS_LOCK then
    if action = GLFW_PRESS then setBits mod_keys GLFW_MOD_CAPS_LOCK
    else if action = GLFW_RELEASE then clearBits mod_keys GLFW_MOD_CAPS_LOCK
    else mod_keys
  else mod_keys

/-- `Handler::OnGlfwKey`: increments the event index, updates the modifier
mask, then updates the uncaptured key table and event list only when the
child did not capture, and the all-events key table and event list
unconditionally. -/
def OnGlfwKey (s : State) (key : Int) (scancode : Int) (action : Int)
    (_mods : Int) (child_wants_capture : Bool) : State :=
  let s := { s with event_index := (s.event_index + 1) % 2 ^ 64 }
  let s := { s with mod_keys := updateModKeys s.mod_keys key action }
  let e : Event := ⟨kKey, child_wants_capture,
    .keyData key scancode action s.mod_keys⟩
  let s :=
    if ¬child_wants_capture then
      let s :=
        if action = GLFW_PRESS then
          { s with keys := s.keys.SetKeyEventIndex key s.event_index }
        else if action = GLFW_RELEASE then
          { s with keys := s.keys.SetKeyEventIndex key 0 }
        else s
      { s with events := s.events ++ [e] }
    else s
  let s :=
    if action = GLFW_PRESS then
      { s with all_keys := s.all_keys.SetKeyEventIndex key s.event_index }
    else if action = GLFW_RELEASE then
      { s with all_keys := s.all_keys.SetKeyEventIndex key 0 }
    else s
  { s with all_events := s.all_events ++ [e] }

/-- `Handler::OnGlfwChar`. -/
def OnGlfwChar (s : State) (c : Nat) (child_wants_capture : Bool) : State :=
  let s := { s with event_index := (s.event_index + 1) % 2 ^ 64 }
  let e : Event := ⟨kChar, child_wants_capture, .charData c⟩
  let s := if ¬child_wants_capture then { s with events := s.events ++ [e] }
           else s
  { s with all_events := s.all_events ++ [e] }

/-- Dispatch of one raw callback to the matching `Handler::OnGlfw...`
member. -/
def step (c : Callback) (s : State) : State :=
  match c with
  | .focus f cap => OnGlfwWindowFocus s f cap
  | .enter en cap => OnGlfwCursorEnter s en cap
  | .cursorPos x y cap => OnGlfwCursorPos s x y cap
  | .mouseButton b a m cap => OnGlfwMouseButton s b a m cap
  | .scroll xo yo cap => OnGlfwScroll s xo yo cap
  | .key k sc a m cap => OnGlfwKey s k sc a m cap
  | .charCb c cap => OnGlfwChar s c cap

/-- `Handler::ClearEvents`: empties both event lists (the child handler's
own `ClearEvents` has no effect on the `Handler` state). -/
def ClearEvents (s : State) : State :=
  { s with events := [], all_events := [] }

/-- Processing of a sequence of raw callbacks, left to right. -/
def run (cs : List Callback) (s : State) : State :=
  cs.foldl (fun s c => step c s) s

/-- An operation performed on the `Handler`: either a raw callback or a
`ClearEvents` call. -/
inductive Op where
  | cb (c : Callback)
  | clear
deriving DecidableEq

/-- One operation applied to the state. -/
def runStep (s : State) (o : Op) : State :=
  match o with
  | .cb c => step c s
  | .clear => ClearEvents s

/-- A sequence of operations applied to the state, left to right. -/
def runOps (ops : List Op) (s : State) : State :=
  ops.foldl runStep s

/-- The number of raw callbacks in an operation sequence (`clear` does not
count). -/
def countCallbacks (ops : List Op) : Nat :=
  (ops.filter fun o => match o with | .cb _ => true | .clear => false).length

/-- The `Event e` value that the handler for a given callback constructs
(read off the `Event e = {...}; e... = ...;` lines of each `OnGlfw...`
member; the rolling state it snapshots is taken from the pre-callback
state, with the modifier mask already updated in the key case, exactly as
in the source). -/
def builtEvent (c : Callback) (s : State) : Event :=
  match c with
  | .focus f cap => ⟨kFocus, cap, .focusData f⟩
  | .enter en cap => ⟨kEnter, cap, .enterData en⟩
  | .cursorPos x y cap =>
      ⟨kCursorPos, cap,
        .cursorPosData x y
          (match s.mouse_x, s.mouse_y with
            | some mx, some _ => x - mx
            | _, _ => 0)
          (match s.mouse_x, s.mouse_y with
            | some _, some my => y - my
            | _, _ => 0)
          s.mouse_buttons s.mod_keys⟩
  | .mouseButton b a _ cap => ⟨kMouseButton, cap, .mouseButtonData b a s.mod_keys⟩
  | .scroll xo yo cap => ⟨kScroll, cap, .scrollData xo yo s.mod_keys⟩
  | .key k sc a _ cap => ⟨kKey, cap, .keyData k sc a (updateModKeys s.mod_keys k a)⟩
  | .charCb ch cap => ⟨kChar, cap, .charData ch⟩

/-- All entries of the key table (through `rawEntry`) are bounded by `n`. -/
def KSBound (n : Nat) (ks : KeyboardState) : Prop :=
  ∀ k : Int, ks.rawEntry k ≤ n

/-- Distinct keys never hold the same nonzero press index. -/
def KSDistinct (ks : KeyboardState) : Prop :=
  ∀ i j : Int, i ≠ j → ks.rawEntry i ≠ 0 → ks.rawEntry i ≠ ks.rawEntry j

/-- Invariant of the `Handler` state: both key tables hold only indices no
larger than the current `event_index`, and within each table distinct keys
hold distinct nonzero indices. -/
def StInv (s : State) : Prop :=
  KSBound s.event_index s.keys ∧ KSDistinct s.keys ∧
    KSBound s.event_index s.all_keys ∧ KSDistinct s.all_keys

/-- Whether a callback is a press or release of key `k` (the callbacks that
write the all-events key table at `k`). -/
def touchesKey (k : Int) : Callback → Bool
  | .key k2 _ a _ _ => k2 = k ∧ (a = GLFW_PRESS ∨ a = GLFW_RELEASE)
  | _ => false

end glfw_input

namespace filament_imgui

/-!
Embedding of `filament_imgui::Ui::UpdateView` (filament_imgui_impl.h).

The GPU objects are modelled by the state they expose to `UpdateView`:
* `vertex_buffer_` / `index_buffer_` by `Option Nat` — `none` is the null
  pointer, `some c` a buffer whose `getVertexCount()` / `getIndexCount()`
  is `c` (Filament buffers report the count they were built with);
* the CPU-side snapshots `vertex_data_` / `index_data_` by lists
  (`index_data_` holds `ImDrawIdx = unsigned short` values, so writes into
  it reduce modulo `2 ^ 16`);
* the material-instance pool by its size;
* the renderables attached to `ui_entity_` by their count;
* the viewport / camera set from the (float) display size by rationals.
Per-command rendering state (clip rects, texture bindings, blend order) and
the engine-side effects (fences, uploads) have no bearing on the claims and
are not modelled; of `ImDrawCmd` only the count of commands per list is
kept, since `UpdateView` uses `CmdBuffer.size()` to size the pool and the
renderable builder.
-/

/-- One ImGui draw list, with the fields `UpdateView` reads: its vertices,
its `ImDrawIdx` (16-bit) index values, and the size of its `CmdBuffer`. -/
structure ImDrawList (V : Type) where
  VtxBuffer : List V
  IdxBuffer : List Nat
  CmdBufferSize : Nat
deriving DecidableEq

/-- `ImDrawData`: the per-frame array of draw lists. ImGui maintains the
invariant that its `CmdListsCount`, `TotalVtxCount` and `TotalIdxCount`
fields equal the list count and the summed vertex/index counts of
`CmdLists`; the model therefore defines them as those sums. -/
structure ImDrawData (V : Type) where
  CmdLists : List (ImDrawList V)
deriving DecidableEq

/-- `ImDrawData::CmdListsCount`. -/
def ImDrawData.CmdListsCount {V : Type} (d : ImDrawData V) : Nat :=
  d.CmdLists.length

/-- `ImDrawData::TotalVtxCount`. -/
def ImDrawData.TotalVtxCount {V : Type} (d : ImDrawData V) : Nat :=
  (d.CmdLists.map fun l => l.VtxBuffer.length).sum

/-- `ImDrawData::TotalIdxCount`. -/
def ImDrawData.TotalIdxCount {V : Type} (d : ImDrawData V) : Nat :=
  (d.CmdLists.map fun l => l.IdxBuffer.length).sum

/-- The `ImGuiIO` fields read by `UpdateView` (floats modelled as ℚ). The
`Fonts->IsBuilt()` flag only triggers a log line and is omitted. -/
structure ImGuiIo where
  DisplaySizeX : ℚ
  DisplaySizeY : ℚ
  DisplayFramebufferScaleX : ℚ
  DisplayFramebufferScaleY : ℚ
deriving DecidableEq

/-- The `filament_imgui::Ui` state visible to `UpdateView`. -/
structure UiState (V : Type) where
  engine : Bool
  viewport : Option (ℚ × ℚ)
  cameraOrtho : Option (ℚ × ℚ)
  vertex_buffer : Option Nat
  index_buffer : Option Nat
  vertex_data : List V
  index_data : List Nat
  material_instances : Nat
  renderables : Nat
deriving DecidableEq

/-- Capacity reported by a possibly-null buffer (`none` — the null pointer —
contributes capacity 0 for comparison purposes). -/
def capVal (b : Option Nat) : Nat := b.getD 0

/-- `std::vector::resize(n)`: truncate to `n` elements or grow with
default-constructed elements. -/
def listResize {α : Type} (l : List α) (n : Nat) (dflt : α) : List α :=
  if n ≤ l.length then l.take n
  else l ++ List.replicate (n - l.length) dflt

/-- `std::memcpy(dst + ofs, src, ...)` on a buffer modelled as a list:
overwrite the elements at positions `[ofs, ofs + src.length)`. -/
def writeAt {α : Type} (dst : List α) (ofs : Nat) (src : List α) : List α :=
  dst.take ofs ++ src ++ dst.drop (ofs + src.length)

/-- The per-list copy loop of `UpdateView` (lines building the vertex and
index snapshots). `i` is the loop counter, `i_vert` / `i_ind` the running
offsets. The first list's indices are memcpy'd verbatim; every later
list's indices are rewritten as `IdxBuffer.Data[i] + i_vert`, an `int` sum
stored back into the `unsigned short` snapshot, hence the `% 2 ^ 16`.
Returns the two snapshots and the final `i_vert` / `i_ind`. -/
def copyLists {V : Type} : List (ImDrawList V) → Nat → Nat → Nat →
    List V → List Nat → List V × List Nat × Nat × Nat
  | [], _, i_vert, i_ind, vd, idxd => (vd, idxd, i_vert, i_ind)
  | l :: rest, i, i_vert, i_ind, vd, idxd =>
      let vd' := writeAt vd i_vert l.VtxBuffer
      let idxd' :=
        if i = 0 then writeAt idxd i_ind l.IdxBuffer
        else writeAt idxd i_ind
          (l.IdxBuffer.map fun r => (r + i_vert) % 2 ^ 16)
      copyLists rest (i + 1) (i_vert + l.VtxBuffer.length)
        (i_ind + l.IdxBuffer.length) vd' idxd'

/-- `Ui::UpdateView`, state-transition form. Mirrors the control flow of the
source: early return on null engine; early return when the display size is
(0, 0); viewport/camera update; destruction of the previous renderables and
early return when there are no command lists; conditional rebuild of each
buffer to exactly the frame's total demand; growth of the material-instance
pool to the renderable count; the copy loop; attachment of the new
renderables. -/
def UpdateView {V : Type} [Inhabited V] (s : UiState V)
    (commands : ImDrawData V) (io : ImGuiIo) : UiState V :=
  if s.engine = false then s
  else if io.DisplaySizeX = 0 ∧ io.DisplaySizeY = 0 then s
  else
    let width_px := io.DisplaySizeX * io.DisplayFramebufferScaleX
    let height_px := io.DisplaySizeY * io.DisplayFramebufferScaleY
    let s := { s with viewport := some (width_px, height_px),
                      cameraOrtho := some (io.DisplaySizeX, io.DisplaySizeY) }
    let s := { s with renderables := 0 }
    if commands.CmdListsCount = 0 then s
    else
      let rebuild_vertex_buffer :=
        s.vertex_buffer = none ∨
          capVal s.vertex_buffer < commands.TotalVtxCount
      let rebuild_index_buffer :=
        s.index_buffer = none ∨
          capVal s.index_buffer < commands.TotalIdxCount
      let s :=
        if rebuild_vertex_buffer then
          { s with vertex_buffer := some commands.TotalVtxCount,
                   vertex_data :=
                     listResize s.vertex_data commands.TotalVtxCount default }
        else s
      let s :=
        if rebuild_index_buffer then
          { s with index_buffer := some commands.TotalIdxCount,
                   index_data :=
                     listResize s.index_data commands.TotalIdxCount 0 }
        else s
      let num_renderables :=
        (commands.CmdLists.map fun l => l.CmdBufferSize).sum
      let s :=
        if s.material_instances < num_renderables then
          { s with material_instances := num_renderables }
        else s
      let r := copyLists commands.CmdLists 0 0 0 s.vertex_data s.index_data
      { s with vertex_data := r.1, index_data := r.2.1,
               renderables := num_renderables }

/-- A sequence of `UpdateView` calls (one per frame), left to right. -/
def runFrames {V : Type} [Inhabited V] (frames : List (ImDrawData V × ImGuiIo))
    (s : UiState V) : UiState V :=
  frames.foldl (fun s f => UpdateView s f.1 f.2) s

/-- The expected content of the index snapshot, as the claim describes it:
the first list's indices verbatim, every later list's indices shifted by
that list's vertex offset (16-bit sum, as stored in the `ImDrawIdx`
snapshot). Parameters mirror the loop counter and running vertex offset. -/
def reindexAll {V : Type} : List (ImDrawList V) → Nat → Nat → List Nat
  | [], _, _ => []
  | l :: rest, i, i_vert =>
      (if i = 0 then l.IdxBuffer
       else l.IdxBuffer.map fun r => (r + i_vert) % 2 ^ 16) ++
        reindexAll rest (i + 1) (i_vert + l.VtxBuffer.length)

/-- The index snapshot content without the 16-bit wrap: every list's indices
shifted by that list's vertex offset in plain arithmetic (for the first
list the shift is 0). Used to state when the stored (wrapped) indices agree
with plain addition. -/
def reindexAllExact {V : Type} : List (ImDrawList V) → Nat → List Nat
  | [], _ => []
  | l :: rest, i_vert =>
      l.IdxBuffer.map (fun r => r + i_vert) ++
        reindexAllExact rest (i_vert + l.VtxBuffer.length)

/-- Size invariant maintained by `UpdateView`: each CPU-side snapshot has
exactly as many elements as its GPU buffer has capacity (both are resized
together, to the same count). -/
def UiWF {V : Type} (s : UiState V) : Prop :=
  s.vertex_data.length = capVal s.vertex_buffer ∧
    s.index_data.length = capVal s.index_buffer

end filament_imgui

namespace glfw_input

/-- Every handler advances `event_index` by exactly one (uint64 increment). -/
theorem step_event_index (c : Callback) (s : State) :
    (step c s).event_index = (s.event_index + 1) % 2 ^ 64 := by
  cases c <;>
    simp only [step, OnGlfwWindowFocus, OnGlfwCursorEnter, OnGlfwCursorPos,
      OnGlfwMouseButton, OnGlfwScroll, OnGlfwKey, OnGlfwChar] <;>
    split_ifs <;> rfl

/-- `ClearEvents` leaves `event_index` unchanged. -/
theorem clearEvents_event_index (s : State) :
    (ClearEvents s).event_index = s.event_index := rfl

/-- C9: the input pipeline is total on out-of-range key codes (negative
codes included): `SetKeyEventIndex` changes no state, `PressedEventIndex`
returns 0 and `IsPressed` returns false (the key is treated as released);
the signed/unsigned bound check rules out any out-of-bounds access, and no
error path exists (all the modelled operations are total Lean functions). -/
theorem out_of_range_key_total (ks : KeyboardState) (key : Int) (v : Nat)
    (h : ¬ks.inRange key) :
    ks.SetKeyEventIndex key v = ks ∧ ks.PressedEventIndex key = 0 ∧
      ks.IsPressed key = false := by
  refine ⟨?_, ?_, ?_⟩ <;>
    simp [KeyboardState.SetKeyEventIndex, KeyboardState.PressedEventIndex,
      KeyboardState.IsPressed, KeyboardState.rawEntry, toInt64, h]

/-- Witness for C9 at a concrete negative key code. -/
theorem out_of_range_key_total_witness :
    (KeyboardState.init 348).SetKeyEventIndex (-5) 7 = KeyboardState.init 348 ∧
      (KeyboardState.init 348).PressedEventIndex (-5) = 0 ∧
      (KeyboardState.init 348).IsPressed (-5) = false :=
  out_of_range_key_total (KeyboardState.init 348) (-5) 7 (by decide)

end glfw_input

namespace glfw_input

/-- C2: every callback appends the constructed `Event` to the all-events
list unconditionally and to the uncaptured-events list exactly when the
child did not capture it; hence a captured event never appears in the
uncaptured list while every event appears in the all-events list. -/
theorem event_routing (c : Callback) (s : State) :
    (step c s).all_events = s.all_events ++ [builtEvent c s] ∧
      (step c s).events =
        (if c.cap then s.events else s.events ++ [builtEvent c s]) ∧
      (builtEvent c s).child_wants_capture = c.cap := by
  cases c with
  | focus f cap =>
      cases cap <;>
        simp [step, OnGlfwWindowFocus, builtEvent, Callback.cap] <;>
        split_ifs <;> simp
  | enter en cap =>
      cases cap <;> simp [step, OnGlfwCursorEnter, builtEvent, Callback.cap]
  | cursorPos x y cap =>
      cases cap <;> cases hx : s.mouse_x <;> cases hy : s.mouse_y <;>
        simp [step, OnGlfwCursorPos, builtEvent, Callback.cap, hx, hy]
  | mouseButton b a m cap =>
      cases cap <;>
        simp [step, OnGlfwMouseButton, builtEvent, Callback.cap] <;>
        split_ifs <;> simp
  | scroll xo yo cap =>
      cases cap <;> simp [step, OnGlfwScroll, builtEvent, Callback.cap]
  | key k sc a m cap =>
      cases cap <;>
        simp [step, OnGlfwKey, builtEvent, Callback.cap] <;>
        split_ifs <;> simp
  | charCb ch cap =>
      cases cap <;> simp [step, OnGlfwChar, builtEvent, Callback.cap]

end glfw_input

namespace glfw_input

/-- C6: a cursor-position callback reports a delta of exactly (0, 0) when
either stored coordinate is the unknown sentinel, and the arithmetic
difference from the stored position otherwise; in both cases the stored
position is then set to the new position. -/
theorem cursor_pos_delta (s : State) (x y : ℚ) (cap : Bool) :
    (step (.cursorPos x y cap) s).all_events =
        s.all_events ++
          [⟨kCursorPos, cap,
            .cursorPosData x y
              (if s.mouse_x = none ∨ s.mouse_y = none then 0
               else x - (s.mouse_x.getD 0))
              (if s.mouse_x = none ∨ s.mouse_y = none then 0
               else y - (s.mouse_y.getD 0))
              s.mouse_buttons s.mod_keys⟩] ∧
      (step (.cursorPos x y cap) s).mouse_x = some x ∧
      (step (.cursorPos x y cap) s).mouse_y = some y := by
  cases cap <;> cases hx : s.mouse_x <;> cases hy : s.mouse_y <;>
    simp [step, OnGlfwCursorPos, hx, hy]

/-- C10: a focus callback with nonzero `focused` resets the stored mouse
position to the unknown sentinel (so the next cursor-position event reports
a (0, 0) delta); a focus callback with `focused = 0` leaves the stored
position unchanged. -/
theorem focus_resets_mouse (s : State) (f : Int) (cap cap2 : Bool) (x y : ℚ) :
    (f ≠ 0 →
      (step (.focus f cap) s).mouse_x = none ∧
        (step (.focus f cap) s).mouse_y = none) ∧
      (f = 0 →
        (step (.focus f cap) s).mouse_x = s.mouse_x ∧
          (step (.focus f cap) s).mouse_y = s.mouse_y) ∧
      (f ≠ 0 →
        (step (.cursorPos x y cap2) (step (.focus f cap) s)).all_events =
          (step (.focus f cap) s).all_events ++
            [⟨kCursorPos, cap2,
              .cursorPosData x y 0 0 s.mouse_buttons s.mod_keys⟩]) := by
  refine ⟨fun hf => ?_, fun hf => ?_, fun hf => ?_⟩
  · cases cap <;> simp [step, OnGlfwWindowFocus, hf]
  · cases cap <;> simp [step, OnGlfwWindowFocus, hf]
  · have h1 : (OnGlfwWindowFocus s f cap).mouse_x = none := by
      cases cap <;> simp [OnGlfwWindowFocus, hf]
    have h2 : (OnGlfwWindowFocus s f cap).mouse_buttons = s.mouse_buttons := by
      cases cap <;> simp [OnGlfwWindowFocus, hf]
    have h3 : (OnGlfwWindowFocus s f cap).mod_keys = s.mod_keys := by
      cases cap <;> simp [OnGlfwWindowFocus, hf]
    cases cap2 <;> cases hmy : (OnGlfwWindowFocus s f cap).mouse_y <;>
      simp [step, OnGlfwCursorPos, h1, h2, h3, hmy]

/-- Witness for C10 at a concrete focus-gain followed by a cursor move. -/
theorem focus_resets_mouse_witness :
    (step (.focus 1 false) initState).mouse_x = none ∧
      (step (.cursorPos 3 4 false) (step (.focus 1 false) initState)).all_events =
        (step (.focus 1 false) initState).all_events ++
          [⟨kCursorPos, false, .cursorPosData 3 4 0 0 0 0⟩] := by
  have h := focus_resets_mouse initState 1 false false 3 4
  exact ⟨(h.1 (by decide)).1, h.2.2 (by decide)⟩

end glfw_input

namespace glfw_input

/-- C1: over any sequence of operations — raw callbacks of all seven kinds
with arbitrary capture outcomes, interleaved with `ClearEvents` calls —
`event_index` after processing equals its value before plus the number N of
raw callbacks (uint64 addition; the second conjunct gives the plain sum
whenever it does not wrap). `ClearEvents` never resets it. -/
theorem event_index_adds_callback_count (ops : List Op) (s : State)
    (h : s.event_index < 2 ^ 64) :
    (runOps ops s).event_index = (s.event_index + countCallbacks ops) % 2 ^ 64 ∧
      (s.event_index + countCallbacks ops < 2 ^ 64 →
        (runOps ops s).event_index = s.event_index + countCallbacks ops) := by
  have main : ∀ (ops : List Op) (s : State), s.event_index < 2 ^ 64 →
      (runOps ops s).event_index =
        (s.event_index + countCallbacks ops) % 2 ^ 64 := by
    intro ops
    induction ops with
    | nil =>
        intro s hs
        simpa [runOps, countCallbacks] using (Nat.mod_eq_of_lt hs).symm
    | cons o rest ih =>
        intro s hs
        have hstep : runOps (o :: rest) s = runOps rest (runStep s o) := rfl
        cases o with
        | cb c =>
            have h1 : (runStep s (.cb c)).event_index =
                (s.event_index + 1) % 2 ^ 64 := step_event_index c s
            have h2 : (runStep s (.cb c)).event_index < 2 ^ 64 := by
              rw [h1]; exact Nat.mod_lt _ (by norm_num)
            rw [hstep, ih _ h2, h1]
            have hcount : countCallbacks (Op.cb c :: rest) =
                countCallbacks rest + 1 := by
              simp [countCallbacks, List.filter]
            rw [hcount, Nat.mod_add_mod]
            congr 1
            omega
        | clear =>
            have h1 : (runStep s .clear).event_index = s.event_index := rfl
            have hcount : countCallbacks (Op.clear :: rest) =
                countCallbacks rest := by
              simp [countCallbacks, List.filter]
            rw [hstep, ih _ (by rw [h1]; exact hs), h1, hcount]
  refine ⟨main ops s h, fun hlt => ?_⟩
  rw [main ops s h]
  exact Nat.mod_eq_of_lt hlt

/-- Witness for C1: three raw callbacks (one captured) interleaved with a
`ClearEvents` call advance `event_index` from 0 to exactly 3. -/
theorem event_index_adds_callback_count_witness :
    (runOps [Op.cb (.focus 1 true), Op.clear, Op.cb (.charCb 97 false),
        Op.cb (.scroll 1 2 true)] initState).event_index = 3 := by
  have h := event_index_adds_callback_count
    [Op.cb (.focus 1 true), Op.clear, Op.cb (.charCb 97 false),
      Op.cb (.scroll 1 2 true)] initState (by decide)
  exact h.2 (by decide)

end glfw_input

namespace glfw_input

/-- Effect of `SetKeyEventIndex` on a `rawEntry` read. -/
theorem rawEntry_set (ks : KeyboardState) (key : Int) (v : Nat) (k : Int) :
    (ks.SetKeyEventIndex key v).rawEntry k =
      if ks.inRange key ∧ k = key then v else ks.rawEntry k := by
  rcases ks with ⟨l⟩
  simp only [KeyboardState.SetKeyEventIndex, KeyboardState.rawEntry,
    KeyboardState.inRange]
  by_cases hkey : 0 ≤ key ∧ key < (l.length : Int)
  · by_cases hk : k = key
    · subst hk
      have hi : k.toNat < l.length := by omega
      simp [hkey, List.length_set, List.getD_eq_getElem?_getD,
        List.getElem?_set_self hi]
    · by_cases h0 : 0 ≤ k
      · have hne : key.toNat ≠ k.toNat := by omega
        simp [hkey, hk, List.length_set, List.getD_eq_getElem?_getD,
          List.getElem?_set_ne hne]
      · simp [hkey, hk, List.length_set, h0]
  · simp [hkey]

/-- A table bound grows monotonically. -/
theorem ksBound_mono {n m : Nat} (h : n ≤ m) (ks : KeyboardState)
    (hb : KSBound n ks) : KSBound m ks :=
  fun k => le_trans (hb k) h

/-- Writing a bounded value preserves the bound. -/
theorem ksBound_set (n : Nat) (ks : KeyboardState) (key : Int) (v : Nat)
    (hb : KSBound n ks) (hv : v ≤ n) :
    KSBound n (ks.SetKeyEventIndex key v) := by
  intro k
  rw [rawEntry_set]
  split_ifs with h
  · exact hv
  · exact hb k

/-- Writing a fresh index (strictly above every stored entry) preserves
distinctness of nonzero entries. -/
theorem ksDistinct_set_fresh (n : Nat) (ks : KeyboardState) (key : Int)
    (hb : KSBound n ks) (hd : KSDistinct ks) :
    KSDistinct (ks.SetKeyEventIndex key (n + 1)) := by
  intro i j hij hi
  simp only [rawEntry_set] at hi ⊢
  split_ifs at hi ⊢ with h1 h2
  · exact absurd (h1.2.trans h2.2.symm) hij
  · have := hb j
    omega
  · have := hb i
    omega
  · exact hd i j hij hi

/-- Writing 0 (a release) preserves distinctness of nonzero entries. -/
theorem ksDistinct_set_zero (ks : KeyboardState) (key : Int)
    (hd : KSDistinct ks) : KSDistinct (ks.SetKeyEventIndex key 0) := by
  intro i j hij hi
  simp only [rawEntry_set] at hi ⊢
  split_ifs at hi ⊢ with h1 h2
  · exact absurd rfl hi
  · exact absurd rfl hi
  · exact hi
  · exact hd i j hij hi

end glfw_input

namespace glfw_input

/-- Field characterization of `OnGlfwKey`: the incremented index, the
conditional update of the uncaptured key table, and the unconditional
update of the all-events key table. -/
theorem onGlfwKey_fields (s : State) (k sc a m : Int) (cap : Bool) :
    (OnGlfwKey s k sc a m cap).event_index = (s.event_index + 1) % 2 ^ 64 ∧
      (OnGlfwKey s k sc a m cap).keys =
        (if cap = false then
          (if a = GLFW_PRESS then
            s.keys.SetKeyEventIndex k ((s.event_index + 1) % 2 ^ 64)
           else if a = GLFW_RELEASE then s.keys.SetKeyEventIndex k 0
           else s.keys)
         else s.keys) ∧
      (OnGlfwKey s k sc a m cap).all_keys =
        (if a = GLFW_PRESS then
          s.all_keys.SetKeyEventIndex k ((s.event_index + 1) % 2 ^ 64)
         else if a = GLFW_RELEASE then s.all_keys.SetKeyEventIndex k 0
         else s.all_keys) := by
  cases cap <;> simp [OnGlfwKey] <;> split_ifs <;> simp_all

/-- Callbacks other than presses/releases of key `k` leave `k`'s entry in
both key tables unchanged. -/
theorem step_rawEntry_untouched (c : Callback) (s : State) (k : Int)
    (h : touchesKey k c = false) :
    (step c s).keys.rawEntry k = s.keys.rawEntry k ∧
      (step c s).all_keys.rawEntry k = s.all_keys.rawEntry k := by
  cases c with
  | key k2 sc a m cap =>
      have hno : ¬(k2 = k ∧ (a = GLFW_PRESS ∨ a = GLFW_RELEASE)) := by
        simpa [touchesKey] using h
      obtain ⟨-, h2, h3⟩ := onGlfwKey_fields s k2 sc a m cap
      have hs : step (.key k2 sc a m cap) s = OnGlfwKey s k2 sc a m cap := rfl
      rw [hs, h2, h3]
      constructor
      · split_ifs with hc1 hc2 hc3 <;>
          simp_all [rawEntry_set] <;> intro h4 h5 <;> exact absurd h5.symm (by tauto)
      · split_ifs with hc1 <;>
          simp_all [rawEntry_set] <;> intro h4 h5 <;> exact absurd h5.symm (by tauto)
  | focus f cap =>
      have : (step (.focus f cap) s).keys = s.keys ∧
          (step (.focus f cap) s).all_keys = s.all_keys := by
        cases cap <;> simp [step, OnGlfwWindowFocus] <;> split_ifs <;>
          exact ⟨rfl, rfl⟩
      rw [this.1, this.2]; exact ⟨rfl, rfl⟩
  | enter en cap =>
      have : (step (.enter en cap) s).keys = s.keys ∧
          (step (.enter en cap) s).all_keys = s.all_keys := by
        cases cap <;> simp [step, OnGlfwCursorEnter]
      rw [this.1, this.2]; exact ⟨rfl, rfl⟩
  | cursorPos x y cap =>
      have : (step (.cursorPos x y cap) s).keys = s.keys ∧
          (step (.cursorPos x y cap) s).all_keys = s.all_keys := by
        cases cap <;> simp [step, OnGlfwCursorPos]
      rw [this.1, this.2]; exact ⟨rfl, rfl⟩
  | mouseButton b a2 m cap =>
      have : (step (.mouseButton b a2 m cap) s).keys = s.keys ∧
          (step (.mouseButton b a2 m cap) s).all_keys = s.all_keys := by
        cases cap <;> simp [step, OnGlfwMouseButton] <;> split_ifs <;>
          exact ⟨rfl, rfl⟩
      rw [this.1, this.2]; exact ⟨rfl, rfl⟩
  | scroll xo yo cap =>
      have : (step (.scroll xo yo cap) s).keys = s.keys ∧
          (step (.scroll xo yo cap) s).all_keys = s.all_keys := by
        cases cap <;> simp [step, OnGlfwScroll]
      rw [this.1, this.2]; exact ⟨rfl, rfl⟩
  | charCb ch cap =>
      have : (step (.charCb ch cap) s).keys = s.keys ∧
          (step (.charCb ch cap) s).all_keys = s.all_keys := by
        cases cap <;> simp [step, OnGlfwChar]
      rw [this.1, this.2]; exact ⟨rfl, rfl⟩

end glfw_input

namespace glfw_input

/-- Callbacks other than key events leave both key tables unchanged. -/
theorem step_tables_nonkey (c : Callback) (s : State)
    (h : ∀ k2 sc a m cap, c ≠ .key k2 sc a m cap) :
    (step c s).keys = s.keys ∧ (step c s).all_keys = s.all_keys := by
  cases c with
  | key k2 sc a m cap => exact absurd rfl (h k2 sc a m cap)
  | focus f cap =>
      cases cap <;> simp [step, OnGlfwWindowFocus] <;> split_ifs <;>
        exact ⟨rfl, rfl⟩
  | enter en cap => cases cap <;> simp [step, OnGlfwCursorEnter]
  | cursorPos x y cap => cases cap <;> simp [step, OnGlfwCursorPos]
  | mouseButton b a2 m cap =>
      cases cap <;> simp [step, OnGlfwMouseButton] <;> split_ifs <;>
        exact ⟨rfl, rfl⟩
  | scroll xo yo cap => cases cap <;> simp [step, OnGlfwScroll]
  | charCb ch cap => cases cap <;> simp [step, OnGlfwChar]

/-- One callback preserves the state invariant (when the event counter does
not wrap). -/
theorem stInv_step (c : Callback) (s : State) (h : StInv s)
    (hb : s.event_index + 1 < 2 ^ 64) : StInv (step c s) := by
  obtain ⟨hb1, hd1, hb2, hd2⟩ := h
  have hidx : (step c s).event_index = s.event_index + 1 := by
    rw [step_event_index, Nat.mod_eq_of_lt hb]
  have hmod : (s.event_index + 1) % 2 ^ 64 = s.event_index + 1 :=
    Nat.mod_eq_of_lt hb
  cases c with
  | key k sc a m cap =>
      obtain ⟨-, h2, h3⟩ := onGlfwKey_fields s k sc a m cap
      have hs : step (.key k sc a m cap) s = OnGlfwKey s k sc a m cap := rfl
      rw [StInv, hidx, hs, h2, h3]
      refine ⟨?_, ?_, ?_, ?_⟩
      · split_ifs
        · rw [hmod]
          exact ksBound_set _ _ _ _ (ksBound_mono (Nat.le_succ _) _ hb1)
            le_rfl
        · exact ksBound_set _ _ _ _ (ksBound_mono (Nat.le_succ _) _ hb1)
            (Nat.zero_le _)
        · exact ksBound_mono (Nat.le_succ _) _ hb1
        · exact ksBound_mono (Nat.le_succ _) _ hb1
      · split_ifs
        · rw [hmod]; exact ksDistinct_set_fresh _ _ _ hb1 hd1
        · exact ksDistinct_set_zero _ _ hd1
        · exact hd1
        · exact hd1
      · split_ifs
        · rw [hmod]
          exact ksBound_set _ _ _ _ (ksBound_mono (Nat.le_succ _) _ hb2)
            le_rfl
        · exact ksBound_set _ _ _ _ (ksBound_mono (Nat.le_succ _) _ hb2)
            (Nat.zero_le _)
        · exact ksBound_mono (Nat.le_succ _) _ hb2
      · split_ifs
        · rw [hmod]; exact ksDistinct_set_fresh _ _ _ hb2 hd2
        · exact ksDistinct_set_zero _ _ hd2
        · exact hd2
  | focus f cap =>
      have ht := step_tables_nonkey (.focus f cap) s (by intro _ _ _ _ _ h; cases h)
      rw [StInv, hidx, ht.1, ht.2]
      exact ⟨ksBound_mono (Nat.le_succ _) _ hb1, hd1,
        ksBound_mono (Nat.le_succ _) _ hb2, hd2⟩
  | enter en cap =>
      have ht := step_tables_nonkey (.enter en cap) s (by intro _ _ _ _ _ h; cases h)
      rw [StInv, hidx, ht.1, ht.2]
      exact ⟨ksBound_mono (Nat.le_succ _) _ hb1, hd1,
        ksBound_mono (Nat.le_succ _) _ hb2, hd2⟩
  | cursorPos x y cap =>
      have ht := step_tables_nonkey (.cursorPos x y cap) s (by intro _ _ _ _ _ h; cases h)
      rw [StInv, hidx, ht.1, ht.2]
      exact ⟨ksBound_mono (Nat.le_succ _) _ hb1, hd1,
        ksBound_mono (Nat.le_succ _) _ hb2, hd2⟩
  | mouseButton b a2 m cap =>
      have ht := step_tables_nonkey (.mouseButton b a2 m cap) s (by intro _ _ _ _ _ h; cases h)
      rw [StInv, hidx, ht.1, ht.2]
      exact ⟨ksBound_mono (Nat.le_succ _) _ hb1, hd1,
        ksBound_mono (Nat.le_succ _) _ hb2, hd2⟩
  | scroll xo yo cap =>
      have ht := step_tables_nonkey (.scroll xo yo cap) s (by intro _ _ _ _ _ h; cases h)
      rw [StInv, hidx, ht.1, ht.2]
      exact ⟨ksBound_mono (Nat.le_succ _) _ hb1, hd1,
        ksBound_mono (Nat.le_succ _) _ hb2, hd2⟩
  | charCb ch cap =>
      have ht := step_tables_nonkey (.charCb ch cap) s (by intro _ _ _ _ _ h; cases h)
      rw [StInv, hidx, ht.1, ht.2]
      exact ⟨ksBound_mono (Nat.le_succ _) _ hb1, hd1,
        ksBound_mono (Nat.le_succ _) _ hb2, hd2⟩

end glfw_input

namespace glfw_input

/-- The default-constructed state satisfies the invariant. -/
theorem stInv_init : StInv initState := by
  have hz : ∀ k : Int, (KeyboardState.init 348).rawEntry k = 0 := by
    intro k
    simp only [KeyboardState.rawEntry, KeyboardState.init,
      List.getD_eq_getElem?_getD, List.getElem?_replicate]
    split_ifs <;> rfl
  exact ⟨fun k => le_of_eq (hz k), fun i j hij hi => absurd (hz i) hi,
    fun k => le_of_eq (hz k), fun i j hij hi => absurd (hz i) hi⟩

/-- Running a callback sequence preserves the invariant and advances the
event counter by the sequence length (when the counter does not wrap). -/
theorem stInv_run (cs : List Callback) : ∀ s : State, StInv s →
    s.event_index + cs.length < 2 ^ 64 →
    StInv (run cs s) ∧ (run cs s).event_index = s.event_index + cs.length := by
  induction cs with
  | nil => intro s h _; exact ⟨h, by simp [run]⟩
  | cons c rest ih =>
      intro s h hbnd
      have hlen : rest.length ≤ (c :: rest).length := by simp
      have h1 : StInv (step c s) := stInv_step c s h (by simp at hbnd; omega)
      have h2 : (step c s).event_index = s.event_index + 1 := by
        rw [step_event_index, Nat.mod_eq_of_lt (by simp at hbnd; omega)]
      have hrw : run (c :: rest) s = run rest (step c s) := rfl
      have := ih (step c s) h1 (by rw [h2]; simp at hbnd ⊢; omega)
      refine ⟨by rw [hrw]; exact this.1, ?_⟩
      rw [hrw, this.2, h2]
      simp
      omega

end glfw_input

namespace glfw_input

/-- For entries below `2 ^ 31` the two narrowing conversions of `Axis` are
the identity. -/
theorem toInt32_toInt64_small (e : Nat) (h : e < 2 ^ 31) :
    toInt32 (toInt64 e) = (e : Int) := by
  have h1 : e % 2 ^ 64 = e := Nat.mod_eq_of_lt (by omega)
  have h2 : e % 2 ^ 64 < 2 ^ 63 := by omega
  rw [toInt64, if_pos h2, toInt32, h1]
  have h3 : ((e : Int) + 2 ^ 31) % 2 ^ 32 = (e : Int) + 2 ^ 31 :=
    Int.emod_eq_of_lt (by omega) (by omega)
  omega

/-- For entries below `2 ^ 63`, `IsPressed` is false exactly on a zero
entry. -/
theorem isPressed_false_iff (ks : KeyboardState) (k : Int)
    (hk : ks.rawEntry k < 2 ^ 63) :
    ks.IsPressed k = false ↔ ks.rawEntry k = 0 := by
  have h1 : ks.rawEntry k % 2 ^ 64 = ks.rawEntry k :=
    Nat.mod_eq_of_lt (by omega)
  rw [KeyboardState.IsPressed, KeyboardState.PressedEventIndex, toInt64,
    if_pos (by omega), h1]
  simp

/-- Antisymmetry of `Axis` for every table and every pair of keys. -/
theorem axis_antisym (ks : KeyboardState) (p q : Int) :
    ks.Axis p q = -(ks.Axis q p) := by
  simp only [KeyboardState.Axis]
  split_ifs <;> omega

/-- In a bounded, distinct table (entries below `2 ^ 31`), `Axis` is 0 on
distinct keys exactly when both are released. -/
theorem axis_zero_iff_aux (ks : KeyboardState) (n : Nat) (hn : n < 2 ^ 31)
    (hbd : KSBound n ks) (hd : KSDistinct ks) (a b : Int) (hab : a ≠ b) :
    (ks.Axis a b = 0 ↔ ks.IsPressed a = false ∧ ks.IsPressed b = false) := by
  have ha : ks.rawEntry a < 2 ^ 31 := lt_of_le_of_lt (hbd a) hn
  have hb2 : ks.rawEntry b < 2 ^ 31 := lt_of_le_of_lt (hbd b) hn
  have e1 : toInt32 (ks.PressedEventIndex a) = (ks.rawEntry a : Int) :=
    toInt32_toInt64_small _ ha
  have e2 : toInt32 (ks.PressedEventIndex b) = (ks.rawEntry b : Int) :=
    toInt32_toInt64_small _ hb2
  rw [isPressed_false_iff ks a (by omega), isPressed_false_iff ks b (by omega)]
  simp only [KeyboardState.Axis, e1, e2]
  constructor
  · intro hz
    have heq : ks.rawEntry a = ks.rawEntry b := by
      by_contra hne
      rcases Nat.lt_or_ge (ks.rawEntry a) (ks.rawEntry b) with hlt | hge
      · rw [if_neg (by omega), if_pos (by omega)] at hz
        exact absurd hz (by omega)
      · rw [if_pos (by omega)] at hz
        exact absurd hz (by omega)
    have hza : ks.rawEntry a = 0 := by
      by_contra hnz
      exact (hd a b hab hnz) heq
    exact ⟨hza, by omega⟩
  · rintro ⟨hza, hzb⟩
    rw [hza, hzb]
    simp

end glfw_input

namespace glfw_input

set_option maxRecDepth 16384 in
/-- C4 counterexample: in the state reached by a single uncaptured press of
key 65, `Axis 65 65` returns 0 although key 65 is pressed — so with `a = b`
(a pair of equal keys) the claimed equivalence "Axis(a,b) = 0 iff both keys
are released" fails on the code. -/
theorem axis_zero_pressed_counterexample :
    (run [Callback.key 65 0 GLFW_PRESS 0 false] initState).keys.Axis 65 65 =
        0 ∧
      (run [Callback.key 65 0 GLFW_PRESS 0 false]
            initState).keys.IsPressed 65 = true := by
  constructor
  · decide
  · decide

/-- C4 (amended): `Axis` is antisymmetric for every table and every pair of
keys; and for distinct keys `a ≠ b`, in any state reachable by fewer than
`2 ^ 31` raw callbacks, `Axis a b = 0` holds exactly when both keys are
released (out-of-range keys reading as released), in the uncaptured table
and in the all-events table alike. Distinctness is forced by the
counterexample (`Axis k k = 0` also while `k` is pressed); the trace bound
keeps the `uint64_t` press indices inside the range where the `const int`
narrowing in `Axis` is faithful. -/
theorem axis_antisym_and_zero_iff (cs : List Callback)
    (hlen : cs.length < 2 ^ 31) (a b : Int) (hab : a ≠ b) :
    (∀ (ks : KeyboardState) (p q : Int), ks.Axis p q = -(ks.Axis q p)) ∧
      ((run cs initState).keys.Axis a b = 0 ↔
        (run cs initState).keys.IsPressed a = false ∧
          (run cs initState).keys.IsPressed b = false) ∧
      ((run cs initState).all_keys.Axis a b = 0 ↔
        (run cs initState).all_keys.IsPressed a = false ∧
          (run cs initState).all_keys.IsPressed b = false) := by
  have h0 : initState.event_index = 0 := rfl
  obtain ⟨⟨hb1, hd1, hb2, hd2⟩, hidx⟩ :=
    stInv_run cs initState stInv_init (by rw [h0]; omega)
  refine ⟨axis_antisym, ?_, ?_⟩
  · exact axis_zero_iff_aux _ (run cs initState).event_index
      (by rw [hidx, h0]; omega) hb1 hd1 a b hab
  · exact axis_zero_iff_aux _ (run cs initState).event_index
      (by rw [hidx, h0]; omega) hb2 hd2 a b hab

/-- Witness for the amended C4 at a concrete trace and a concrete pair of
distinct keys. -/
theorem axis_antisym_and_zero_iff_witness :
    (run [Callback.key 65 0 GLFW_PRESS 0 false] initState).keys.Axis 65 66 =
        0 ↔
      (run [Callback.key 65 0 GLFW_PRESS 0 false]
            initState).keys.IsPressed 65 = false ∧
        (run [Callback.key 65 0 GLFW_PRESS 0 false]
              initState).keys.IsPressed 66 = false :=
  (axis_antisym_and_zero_iff [Callback.key 65 0 GLFW_PRESS 0 false]
    (by decide) 65 66 (by decide)).2.1

end glfw_input

namespace glfw_input

/-- A run containing no press/release of key `k` leaves `k`'s entry in both
key tables unchanged. -/
theorem run_rawEntry_untouched (cs : List Callback) : ∀ (s : State) (k : Int),
    (∀ c ∈ cs, touchesKey k c = false) →
    (run cs s).keys.rawEntry k = s.keys.rawEntry k ∧
      (run cs s).all_keys.rawEntry k = s.all_keys.rawEntry k := by
  induction cs with
  | nil => intro s k _; exact ⟨rfl, rfl⟩
  | cons c rest ih =>
      intro s k hc
      have h1 := step_rawEntry_untouched c s k (hc c (by simp))
      have h2 := ih (step c s) k (fun c2 hc2 => hc c2 (by simp [hc2]))
      exact ⟨h2.1.trans h1.1, h2.2.trans h1.2⟩

/-- C5 (amended): for an in-range key, an uncaptured press stores the
just-incremented `event_index` in both key tables and an uncaptured release
stores 0 in both; a captured key event leaves the uncaptured table entirely
unchanged while the all-events table is still updated; and the stored entry
then persists unchanged through any further callbacks that are not
themselves a press or release of that same key (the amendment: a second
press of the key also overwrites the entry, so mere absence of a release is
not enough). -/
theorem key_table_update (s : State) (k sc m : Int) (cs : List Callback)
    (hk1 : s.keys.inRange k) (hk2 : s.all_keys.inRange k)
    (hcs : ∀ c ∈ cs, touchesKey k c = false) :
    ((step (.key k sc GLFW_PRESS m false) s).keys.rawEntry k =
        (step (.key k sc GLFW_PRESS m false) s).event_index ∧
      (step (.key k sc GLFW_PRESS m false) s).all_keys.rawEntry k =
        (step (.key k sc GLFW_PRESS m false) s).event_index ∧
      (step (.key k sc GLFW_PRESS m false) s).event_index =
        (s.event_index + 1) % 2 ^ 64) ∧
      ((step (.key k sc GLFW_RELEASE m false) s).keys.rawEntry k = 0 ∧
        (step (.key k sc GLFW_RELEASE m false) s).all_keys.rawEntry k = 0) ∧
      (∀ a : Int, (step (.key k sc a m true) s).keys = s.keys) ∧
      ((step (.key k sc GLFW_PRESS m true) s).all_keys.rawEntry k =
          (step (.key k sc GLFW_PRESS m true) s).event_index ∧
        (step (.key k sc GLFW_RELEASE m true) s).all_keys.rawEntry k = 0) ∧
      ((run cs s).keys.rawEntry k = s.keys.rawEntry k ∧
        (run cs s).all_keys.rawEntry k = s.all_keys.rawEntry k) := by
  refine ⟨?_, ?_, ?_, ?_, run_rawEntry_untouched cs s k hcs⟩
  · obtain ⟨hei, hks, hak⟩ := onGlfwKey_fields s k sc GLFW_PRESS m false
    have hs : step (.key k sc GLFW_PRESS m false) s =
        OnGlfwKey s k sc GLFW_PRESS m false := rfl
    rw [hs, hei, hks, hak]
    simp [rawEntry_set, hk1, hk2]
  · obtain ⟨hei, hks, hak⟩ := onGlfwKey_fields s k sc GLFW_RELEASE m false
    have hs : step (.key k sc GLFW_RELEASE m false) s =
        OnGlfwKey s k sc GLFW_RELEASE m false := rfl
    rw [hs, hks, hak]
    simp [rawEntry_set, hk1, hk2, GLFW_RELEASE, GLFW_PRESS]
  · intro a
    obtain ⟨-, hks, -⟩ := onGlfwKey_fields s k sc a m true
    have hs : step (.key k sc a m true) s = OnGlfwKey s k sc a m true := rfl
    rw [hs, hks]
    simp
  · constructor
    · obtain ⟨hei, -, hak⟩ := onGlfwKey_fields s k sc GLFW_PRESS m true
      have hs : step (.key k sc GLFW_PRESS m true) s =
          OnGlfwKey s k sc GLFW_PRESS m true := rfl
      rw [hs, hei, hak]
      simp [rawEntry_set, hk2]
    · obtain ⟨-, -, hak⟩ := onGlfwKey_fields s k sc GLFW_RELEASE m true
      have hs : step (.key k sc GLFW_RELEASE m true) s =
          OnGlfwKey s k sc GLFW_RELEASE m true := rfl
      rw [hs, hak]
      simp [rawEntry_set, hk2, GLFW_RELEASE, GLFW_PRESS]

set_option maxRecDepth 16384 in
/-- C5 counterexample: two uncaptured presses of key 65 with no release in
between; the second press overwrites the stored index (2 replaces 1), so a
press with no subsequent release does not leave the stored index unchanged
indefinitely. -/
theorem key_double_press_counterexample :
    (run [Callback.key 65 0 GLFW_PRESS 0 false] initState).keys.rawEntry 65 =
        1 ∧
      (run [Callback.key 65 0 GLFW_PRESS 0 false,
          Callback.key 65 0 GLFW_PRESS 0 false]
          initState).keys.rawEntry 65 = 2 := by
  constructor
  · decide
  · decide

set_option maxRecDepth 16384 in
/-- Witness for the amended C5 at a concrete state, key and trailing
callback list. -/
theorem key_table_update_witness :
    (step (.key 65 0 GLFW_PRESS 0 false) initState).keys.rawEntry 65 =
        (step (.key 65 0 GLFW_PRESS 0 false) initState).event_index ∧
      (step (.key 65 0 GLFW_PRESS 0 false) initState).all_keys.rawEntry 65 =
        (step (.key 65 0 GLFW_PRESS 0 false) initState).event_index ∧
      (step (.key 65 0 GLFW_PRESS 0 false) initState).event_index =
        (initState.event_index + 1) % 2 ^ 64 :=
  (key_table_update initState 65 0 0 [Callback.charCb 97 false]
    (by decide) (by decide) (by decide)).1

end glfw_input

namespace filament_imgui

/-- `listResize` always produces a list of exactly the requested length. -/
theorem listResize_length {α : Type} (l : List α) (n : Nat) (d : α) :
    (listResize l n d).length = n := by
  rw [listResize]
  split_ifs with h <;> simp <;> omega

/-- `writeAt` inside the buffer preserves the buffer length. -/
theorem writeAt_length {α : Type} (dst : List α) (ofs : Nat) (src : List α)
    (h : ofs + src.length ≤ dst.length) :
    (writeAt dst ofs src).length = dst.length := by
  simp [writeAt]
  omega

/-- `writeAt` preserves the prefix before the write offset. -/
theorem writeAt_take {α : Type} (dst : List α) (ofs : Nat) (src : List α)
    (h : ofs ≤ dst.length) :
    (writeAt dst ofs src).take ofs = dst.take ofs := by
  rw [writeAt, List.append_assoc,
    List.take_append_of_le_length (by simp; omega), List.take_take, min_self]

/-- The written window of `writeAt` reads back the source. -/
theorem writeAt_window {α : Type} (dst : List α) (ofs : Nat) (src : List α)
    (h : ofs ≤ dst.length) :
    ((writeAt dst ofs src).drop ofs).take src.length = src := by
  rw [writeAt, List.append_assoc,
    List.drop_left' (by simp; omega), List.take_left' rfl]

/-- Commuting a bounded take past a drop. -/
theorem take_drop_comm {α : Type} (l : List α) (m n : Nat) :
    (l.drop m).take n = (l.take (m + n)).drop m := by
  rw [List.drop_take]
  simp

/-- Specification of the copy loop of `UpdateView`: given enough room in
both snapshots, it fills the vertex window `[i_vert, i_vert + ΣVk)` with
the concatenated vertex lists and the index window `[i_ind, i_ind + ΣIk)`
with the re-indexed index lists, preserves the snapshot lengths and the
prefixes before the windows, and returns the advanced offsets. -/
theorem copyLists_spec {V : Type} (lists : List (ImDrawList V)) :
    ∀ (i i_vert i_ind : Nat) (vd : List V) (idxd : List Nat),
    i_vert + (lists.map fun l => l.VtxBuffer.length).sum ≤ vd.length →
    i_ind + (lists.map fun l => l.IdxBuffer.length).sum ≤ idxd.length →
    (copyLists lists i i_vert i_ind vd idxd).1.length = vd.length ∧
      (copyLists lists i i_vert i_ind vd idxd).2.1.length = idxd.length ∧
      (copyLists lists i i_vert i_ind vd idxd).2.2.1 =
        i_vert + (lists.map fun l => l.VtxBuffer.length).sum ∧
      (copyLists lists i i_vert i_ind vd idxd).2.2.2 =
        i_ind + (lists.map fun l => l.IdxBuffer.length).sum ∧
      (copyLists lists i i_vert i_ind vd idxd).1.take i_vert =
        vd.take i_vert ∧
      (copyLists lists i i_vert i_ind vd idxd).2.1.take i_ind =
        idxd.take i_ind ∧
      ((copyLists lists i i_vert i_ind vd idxd).1.drop i_vert).take
          ((lists.map fun l => l.VtxBuffer.length).sum) =
        (lists.map ImDrawList.VtxBuffer).flatten ∧
      ((copyLists lists i i_vert i_ind vd idxd).2.1.drop i_ind).take
          ((lists.map fun l => l.IdxBuffer.length).sum) =
        reindexAll lists i i_vert := by
  induction lists with
  | nil =>
      intro i i_vert i_ind vd idxd hv hi
      simp [copyLists, reindexAll]
  | cons l rest ih =>
      intro i i_vert i_ind vd idxd hv hi
      simp only [List.map_cons, List.sum_cons] at hv hi
      have hvd' : (writeAt vd i_vert l.VtxBuffer).length = vd.length :=
        writeAt_length vd i_vert l.VtxBuffer (by omega)
      set src_i : List Nat :=
        (if i = 0 then l.IdxBuffer
         else l.IdxBuffer.map fun r => (r + i_vert) % 2 ^ 16) with hsrc
      have hsi : src_i.length = l.IdxBuffer.length := by
        rw [hsrc]; split_ifs <;> simp
      have hidx' : (writeAt idxd i_ind src_i).length = idxd.length :=
        writeAt_length idxd i_ind src_i (by omega)
      have hif : (if i = 0 then writeAt idxd i_ind l.IdxBuffer
          else writeAt idxd i_ind
            (l.IdxBuffer.map fun r => (r + i_vert) % 2 ^ 16)) =
          writeAt idxd i_ind src_i := by
        rw [hsrc]; split_ifs <;> rfl
      have hrec : copyLists (l :: rest) i i_vert i_ind vd idxd =
          copyLists rest (i + 1) (i_vert + l.VtxBuffer.length)
            (i_ind + l.IdxBuffer.length) (writeAt vd i_vert l.VtxBuffer)
            (writeAt idxd i_ind src_i) := by
        rw [copyLists, hif]
      obtain ⟨ih1, ih2, ih3, ih4, ih5, ih6, ih7, ih8⟩ :=
        ih (i + 1) (i_vert + l.VtxBuffer.length) (i_ind + l.IdxBuffer.length)
          (writeAt vd i_vert l.VtxBuffer) (writeAt idxd i_ind src_i)
          (by rw [hvd']; omega) (by rw [hidx']; omega)
      rw [hrec]
      refine ⟨by rw [ih1, hvd'], by rw [ih2, hidx'],
        by rw [ih3]; simp only [List.map_cons, List.sum_cons]; omega,
        by rw [ih4]; simp only [List.map_cons, List.sum_cons]; omega,
        ?_, ?_, ?_, ?_⟩
      · have h2 : (copyLists rest (i + 1) (i_vert + l.VtxBuffer.length)
            (i_ind + l.IdxBuffer.length) (writeAt vd i_vert l.VtxBuffer)
            (writeAt idxd i_ind src_i)).1.take i_vert =
            ((copyLists rest (i + 1) (i_vert + l.VtxBuffer.length)
              (i_ind + l.IdxBuffer.length) (writeAt vd i_vert l.VtxBuffer)
              (writeAt idxd i_ind src_i)).1.take
                (i_vert + l.VtxBuffer.length)).take i_vert := by
          rw [List.take_take, min_eq_left (by omega)]
        rw [h2, ih5, List.take_take, min_eq_left (by omega),
          writeAt_take vd i_vert l.VtxBuffer (by omega)]
      · have h2 : (copyLists rest (i + 1) (i_vert + l.VtxBuffer.length)
            (i_ind + l.IdxBuffer.length) (writeAt vd i_vert l.VtxBuffer)
            (writeAt idxd i_ind src_i)).2.1.take i_ind =
            ((copyLists rest (i + 1) (i_vert + l.VtxBuffer.length)
              (i_ind + l.IdxBuffer.length) (writeAt vd i_vert l.VtxBuffer)
              (writeAt idxd i_ind src_i)).2.1.take
                (i_ind + l.IdxBuffer.length)).take i_ind := by
          rw [List.take_take, min_eq_left (by omega)]
        rw [h2, ih6, List.take_take, min_eq_left (by omega),
          writeAt_take idxd i_ind src_i (by omega)]
      · simp only [List.map_cons, List.sum_cons]
        rw [List.take_add, List.drop_drop]
        have hw : ((copyLists rest (i + 1) (i_vert + l.VtxBuffer.length)
            (i_ind + l.IdxBuffer.length) (writeAt vd i_vert l.VtxBuffer)
            (writeAt idxd i_ind src_i)).1.drop i_vert).take
              l.VtxBuffer.length = l.VtxBuffer := by
          rw [take_drop_comm, ih5, ← take_drop_comm]
          exact writeAt_window vd i_vert l.VtxBuffer (by omega)
        rw [hw, ih7]
        simp
      · simp only [List.map_cons, List.sum_cons]
        rw [List.take_add, List.drop_drop]
        have hw : ((copyLists rest (i + 1) (i_vert + l.VtxBuffer.length)
            (i_ind + l.IdxBuffer.length) (writeAt vd i_vert l.VtxBuffer)
            (writeAt idxd i_ind src_i)).2.1.drop i_ind).take
              l.IdxBuffer.length = src_i := by
          rw [take_drop_comm, ih6, ← take_drop_comm, ← hsi]
          exact writeAt_window idxd i_ind src_i (by omega)
        rw [hw, ih8]
        rw [show reindexAll (l :: rest) i i_vert =
            src_i ++ reindexAll rest (i + 1) (i_vert + l.VtxBuffer.length) by
          rw [reindexAll, ← hsrc]]

end filament_imgui

namespace filament_imgui

/-- Every re-indexed index stays below the running total vertex count,
provided each raw index is below its own list's vertex count. -/
theorem reindexAll_lt {V : Type} (lists : List (ImDrawList V)) :
    ∀ (i i_vert : Nat),
    (∀ l ∈ lists, ∀ r ∈ l.IdxBuffer, r < l.VtxBuffer.length) →
    ∀ v ∈ reindexAll lists i i_vert,
      v < i_vert + (lists.map fun l => l.VtxBuffer.length).sum := by
  induction lists with
  | nil => intro i i_vert _ v hv; simp [reindexAll] at hv
  | cons l rest ih =>
      intro i i_vert hb v hv
      rw [reindexAll] at hv
      rcases List.mem_append.1 hv with hv | hv
      · have hl := hb l (by simp)
        split_ifs at hv with h0
        · have := hl v hv
          simp only [List.map_cons, List.sum_cons]
          omega
        · obtain ⟨r, hr, hrv⟩ := List.mem_map.1 hv
          have := hl r hr
          have hle : (r + i_vert) % 2 ^ 16 ≤ r + i_vert := Nat.mod_le _ _
          simp only [List.map_cons, List.sum_cons]
          omega
      · have := ih (i + 1) (i_vert + l.VtxBuffer.length)
          (fun l2 hl2 => hb l2 (by simp [hl2])) v hv
        simp only [List.map_cons, List.sum_cons]
        omega

/-- When the total vertex count fits in 16 bits (and the loop is entered at
the top, offset 0 for list 0), the stored indices equal the plain sums:
no 16-bit wrap occurs. -/
theorem reindexAll_eq_exact {V : Type} (lists : List (ImDrawList V)) :
    ∀ (i i_vert : Nat),
    (∀ l ∈ lists, ∀ r ∈ l.IdxBuffer, r < l.VtxBuffer.length) →
    i_vert + (lists.map fun l => l.VtxBuffer.length).sum ≤ 2 ^ 16 →
    (i = 0 → i_vert = 0) →
    reindexAll lists i i_vert = reindexAllExact lists i_vert := by
  induction lists with
  | nil => intro i i_vert _ _ _; rfl
  | cons l rest ih =>
      intro i i_vert hb hfit h0
      simp only [List.map_cons, List.sum_cons] at hfit
      rw [reindexAll, reindexAllExact]
      have hrest : reindexAll rest (i + 1) (i_vert + l.VtxBuffer.length) =
          reindexAllExact rest (i_vert + l.VtxBuffer.length) :=
        ih (i + 1) (i_vert + l.VtxBuffer.length)
          (fun l2 hl2 => hb l2 (by simp [hl2])) (by omega) (by omega)
      rw [hrest]
      congr 1
      split_ifs with hi
      · have hz : i_vert = 0 := h0 hi
        subst hz
        simp
      · apply List.map_congr_left
        intro r hr
        have := hb l (by simp) r hr
        exact Nat.mod_eq_of_lt (by omega)

end filament_imgui

namespace filament_imgui

/-- With a null engine, `UpdateView` is the identity. -/
theorem updateView_engine_false {V : Type} [Inhabited V] (s : UiState V)
    (commands : ImDrawData V) (io : ImGuiIo) (h : s.engine = false) :
    UpdateView s commands io = s := by
  rw [UpdateView, if_pos h]

/-- With a (0, 0) display size, `UpdateView` is the identity. -/
theorem updateView_display_zero {V : Type} [Inhabited V] (s : UiState V)
    (commands : ImDrawData V) (io : ImGuiIo)
    (h : io.DisplaySizeX = 0 ∧ io.DisplaySizeY = 0) :
    UpdateView s commands io = s := by
  rw [UpdateView]
  split_ifs with h1
  · rfl
  · rfl

/-- With no command lists (and a live engine and nonzero display),
`UpdateView` updates the viewport and camera, clears the renderables, and
returns with everything else untouched. -/
theorem updateView_no_lists {V : Type} [Inhabited V] (s : UiState V)
    (commands : ImDrawData V) (io : ImGuiIo)
    (heng : s.engine = true)
    (hnz : ¬(io.DisplaySizeX = 0 ∧ io.DisplaySizeY = 0))
    (hempty : commands.CmdLists = []) :
    UpdateView s commands io =
      { s with
        viewport := some (io.DisplaySizeX * io.DisplayFramebufferScaleX,
          io.DisplaySizeY * io.DisplayFramebufferScaleY),
        cameraOrtho := some (io.DisplaySizeX, io.DisplaySizeY),
        renderables := 0 } := by
  have hcount : commands.CmdListsCount = 0 := by
    simp [ImDrawData.CmdListsCount, hempty]
  rw [UpdateView, if_neg (by rw [heng]; simp), if_neg hnz]
  simp [hcount]

/-- Field characterization of `UpdateView` on the main path (live engine,
nonzero display, at least one command list). -/
theorem updateView_fields {V : Type} [Inhabited V] (s : UiState V)
    (commands : ImDrawData V) (io : ImGuiIo)
    (heng : s.engine = true)
    (hnz : ¬(io.DisplaySizeX = 0 ∧ io.DisplaySizeY = 0))
    (hne : commands.CmdLists ≠ []) :
    (UpdateView s commands io).vertex_buffer =
      (if s.vertex_buffer = none ∨
          capVal s.vertex_buffer < commands.TotalVtxCount
       then some commands.TotalVtxCount else s.vertex_buffer) ∧
    (UpdateView s commands io).index_buffer =
      (if s.index_buffer = none ∨
          capVal s.index_buffer < commands.TotalIdxCount
       then some commands.TotalIdxCount else s.index_buffer) ∧
    (UpdateView s commands io).vertex_data =
      (copyLists commands.CmdLists 0 0 0
        (if s.vertex_buffer = none ∨
            capVal s.vertex_buffer < commands.TotalVtxCount
         then listResize s.vertex_data commands.TotalVtxCount default
         else s.vertex_data)
        (if s.index_buffer = none ∨
            capVal s.index_buffer < commands.TotalIdxCount
         then listResize s.index_data commands.TotalIdxCount 0
         else s.index_data)).1 ∧
    (UpdateView s commands io).index_data =
      (copyLists commands.CmdLists 0 0 0
        (if s.vertex_buffer = none ∨
            capVal s.vertex_buffer < commands.TotalVtxCount
         then listResize s.vertex_data commands.TotalVtxCount default
         else s.vertex_data)
        (if s.index_buffer = none ∨
            capVal s.index_buffer < commands.TotalIdxCount
         then listResize s.index_data commands.TotalIdxCount 0
         else s.index_data)).2.1 ∧
    (UpdateView s commands io).material_instances =
      (if s.material_instances <
          (commands.CmdLists.map fun l => l.CmdBufferSize).sum
       then (commands.CmdLists.map fun l => l.CmdBufferSize).sum
       else s.material_instances) ∧
    (UpdateView s commands io).renderables =
      (commands.CmdLists.map fun l => l.CmdBufferSize).sum := by
  have hcount : ¬(commands.CmdListsCount = 0) := by
    simpa [ImDrawData.CmdListsCount, List.length_eq_zero] using hne
  rw [UpdateView, if_neg (by rw [heng]; simp), if_neg hnz]
  simp only [hcount, if_neg hcount]
  split_ifs <;> simp_all

end filament_imgui

namespace filament_imgui

/-- One `UpdateView` call never shrinks either buffer capacity. -/
theorem updateView_cap_mono {V : Type} [Inhabited V] (s : UiState V)
    (commands : ImDrawData V) (io : ImGuiIo) :
    capVal s.vertex_buffer ≤ capVal (UpdateView s commands io).vertex_buffer ∧
      capVal s.index_buffer ≤ capVal (UpdateView s commands io).index_buffer := by
  by_cases heng : s.engine = true
  · by_cases hnz : io.DisplaySizeX = 0 ∧ io.DisplaySizeY = 0
    · rw [updateView_display_zero s commands io hnz]
      exact ⟨le_rfl, le_rfl⟩
    · by_cases hempty : commands.CmdLists = []
      · rw [updateView_no_lists s commands io heng hnz hempty]
        exact ⟨le_rfl, le_rfl⟩
      · obtain ⟨h1, h2, -⟩ := updateView_fields s commands io heng hnz hempty
        constructor
        · rw [h1]
          split_ifs with h
          · rcases h with h | h
            · rw [h]; simp [capVal]
            · simp only [capVal, Option.getD_some]
              exact le_of_lt h
          · exact le_rfl
        · rw [h2]
          split_ifs with h
          · rcases h with h | h
            · rw [h]; simp [capVal]
            · simp only [capVal, Option.getD_some]
              exact le_of_lt h
          · exact le_rfl
  · rw [updateView_engine_false s commands io (by simpa using heng)]
    exact ⟨le_rfl, le_rfl⟩

/-- A whole sequence of `UpdateView` calls never shrinks either capacity. -/
theorem runFrames_cap_mono {V : Type} [Inhabited V]
    (frames : List (ImDrawData V × ImGuiIo)) : ∀ s : UiState V,
    capVal s.vertex_buffer ≤ capVal (runFrames frames s).vertex_buffer ∧
      capVal s.index_buffer ≤ capVal (runFrames frames s).index_buffer := by
  induction frames with
  | nil => intro s; exact ⟨le_rfl, le_rfl⟩
  | cons f rest ih =>
      intro s
      have h1 := updateView_cap_mono s f.1 f.2
      have h2 := ih (UpdateView s f.1 f.2)
      exact ⟨le_trans h1.1 h2.1, le_trans h1.2 h2.2⟩

/-- C7: buffer capacities are non-decreasing, both per call and across any
sequence of `UpdateView` calls; on the main path a buffer is replaced
exactly when the frame's total demand strictly exceeds its capacity (or it
does not exist yet), and then its capacity becomes exactly that frame's
demand (the running high-water mark), otherwise the buffer is kept as is;
a frame with zero command lists leaves both buffers and both snapshots
untouched. -/
theorem buffer_capacity_high_water {V : Type} [Inhabited V] (s : UiState V)
    (commands : ImDrawData V) (io : ImGuiIo)
    (frames : List (ImDrawData V × ImGuiIo)) :
    (capVal s.vertex_buffer ≤ capVal (UpdateView s commands io).vertex_buffer ∧
      capVal s.index_buffer ≤ capVal (UpdateView s commands io).index_buffer) ∧
    (capVal s.vertex_buffer ≤ capVal (runFrames frames s).vertex_buffer ∧
      capVal s.index_buffer ≤ capVal (runFrames frames s).index_buffer) ∧
    (s.engine = true → ¬(io.DisplaySizeX = 0 ∧ io.DisplaySizeY = 0) →
      commands.CmdLists ≠ [] →
      ((s.vertex_buffer = none ∨
          capVal s.vertex_buffer < commands.TotalVtxCount) →
        (UpdateView s commands io).vertex_buffer =
          some commands.TotalVtxCount) ∧
      (¬(s.vertex_buffer = none ∨
          capVal s.vertex_buffer < commands.TotalVtxCount) →
        (UpdateView s commands io).vertex_buffer = s.vertex_buffer) ∧
      ((s.index_buffer = none ∨
          capVal s.index_buffer < commands.TotalIdxCount) →
        (UpdateView s commands io).index_buffer =
          some commands.TotalIdxCount) ∧
      (¬(s.index_buffer = none ∨
          capVal s.index_buffer < commands.TotalIdxCount) →
        (UpdateView s commands io).index_buffer = s.index_buffer)) ∧
    (commands.CmdLists = [] →
      (UpdateView s commands io).vertex_buffer = s.vertex_buffer ∧
      (UpdateView s commands io).index_buffer = s.index_buffer ∧
      (UpdateView s commands io).vertex_data = s.vertex_data ∧
      (UpdateView s commands io).index_data = s.index_data) := by
  refine ⟨updateView_cap_mono s commands io, runFrames_cap_mono frames s,
    ?_, ?_⟩
  · intro heng hnz hne
    obtain ⟨h1, h2, -⟩ := updateView_fields s commands io heng hnz hne
    refine ⟨fun h => ?_, fun h => ?_, fun h => ?_, fun h => ?_⟩
    · rw [h1, if_pos h]
    · rw [h1, if_neg h]
    · rw [h2, if_pos h]
    · rw [h2, if_neg h]
  · intro hempty
    by_cases heng : s.engine = true
    · by_cases hnz : io.DisplaySizeX = 0 ∧ io.DisplaySizeY = 0
      · rw [updateView_display_zero s commands io hnz]
        exact ⟨rfl, rfl, rfl, rfl⟩
      · rw [updateView_no_lists s commands io heng hnz hempty]
        exact ⟨rfl, rfl, rfl, rfl⟩
    · rw [updateView_engine_false s commands io (by simpa using heng)]
      exact ⟨rfl, rfl, rfl, rfl⟩

/-- Witness for C7: on a live state with no buffer yet, a frame demanding 2
vertices allocates a vertex buffer of capacity exactly 2. -/
theorem buffer_capacity_high_water_witness :
    (UpdateView (⟨true, none, none, none, none, [], [], 0, 0⟩ : UiState Nat)
        (⟨[⟨[10, 20], [0, 1, 0], 1⟩]⟩ : ImDrawData Nat)
        ⟨2, 2, 1, 1⟩).vertex_buffer = some 2 := by
  have h := buffer_capacity_high_water
    (⟨true, none, none, none, none, [], [], 0, 0⟩ : UiState Nat)
    (⟨[⟨[10, 20], [0, 1, 0], 1⟩]⟩ : ImDrawData Nat) ⟨2, 2, 1, 1⟩ []
  exact (h.2.2.1 rfl (by norm_num) (by simp)).1 (Or.inl rfl)

end filament_imgui

namespace filament_imgui

/-- C8: `UpdateView` handles its degenerate inputs without error (the model
is a total function): with a (0, 0) display size it returns without
modifying any state; with a live engine, a nonzero display size and zero
command lists it clears the previous frame's renderables and returns,
producing no batches and touching neither the buffers and snapshots nor
the material-instance pool. -/
theorem update_view_degenerate {V : Type} [Inhabited V] (s : UiState V)
    (commands : ImDrawData V) (io : ImGuiIo) :
    ((io.DisplaySizeX = 0 ∧ io.DisplaySizeY = 0) →
      UpdateView s commands io = s) ∧
    (s.engine = true → ¬(io.DisplaySizeX = 0 ∧ io.DisplaySizeY = 0) →
      commands.CmdLists = [] →
      (UpdateView s commands io).renderables = 0 ∧
      (UpdateView s commands io).vertex_buffer = s.vertex_buffer ∧
      (UpdateView s commands io).index_buffer = s.index_buffer ∧
      (UpdateView s commands io).vertex_data = s.vertex_data ∧
      (UpdateView s commands io).index_data = s.index_data ∧
      (UpdateView s commands io).material_instances = s.material_instances) := by
  constructor
  · intro hz
    exact updateView_display_zero s commands io hz
  · intro heng hnz hempty
    rw [updateView_no_lists s commands io heng hnz hempty]
    exact ⟨rfl, rfl, rfl, rfl, rfl, rfl⟩

/-- Witness for C8: a minimized-window frame is a strict no-op, and an
empty frame on a live state clears the renderables. -/
theorem update_view_degenerate_witness :
    UpdateView (⟨true, none, none, none, none, [], [], 0, 5⟩ : UiState Nat)
        (⟨[]⟩ : ImDrawData Nat) ⟨0, 0, 1, 1⟩ =
      (⟨true, none, none, none, none, [], [], 0, 5⟩ : UiState Nat) ∧
      (UpdateView (⟨true, none, none, none, none, [], [], 0, 5⟩ : UiState Nat)
          (⟨[]⟩ : ImDrawData Nat) ⟨2, 2, 1, 1⟩).renderables = 0 := by
  have h1 := update_view_degenerate
    (⟨true, none, none, none, none, [], [], 0, 5⟩ : UiState Nat)
    (⟨[]⟩ : ImDrawData Nat) ⟨0, 0, 1, 1⟩
  have h2 := update_view_degenerate
    (⟨true, none, none, none, none, [], [], 0, 5⟩ : UiState Nat)
    (⟨[]⟩ : ImDrawData Nat) ⟨2, 2, 1, 1⟩
  exact ⟨h1.1 ⟨rfl, rfl⟩, (h2.2 rfl (by norm_num) rfl).1⟩

end filament_imgui

namespace filament_imgui

/-- C3: on the main path, with every raw index inside its own list's vertex
range, the first ΣVk entries of the shared vertex snapshot are exactly the
K vertex lists concatenated at their running offsets, and the first ΣIk
entries of the index snapshot are the first list's indices verbatim
followed by each later list's indices incremented by that list's
vertex-offset-so-far (the sum as stored in the 16-bit `ImDrawIdx`
snapshot); both spans have exactly ΣVk and ΣIk entries, every resulting
index value lies in `[0, ΣVk)`, and whenever ΣVk fits in 16 bits the
increments are the plain sums. -/
theorem update_view_translation {V : Type} [Inhabited V] (s : UiState V)
    (commands : ImDrawData V) (io : ImGuiIo)
    (heng : s.engine = true)
    (hnz : ¬(io.DisplaySizeX = 0 ∧ io.DisplaySizeY = 0))
    (hne : commands.CmdLists ≠ [])
    (hwf : UiWF s)
    (hidx : ∀ l ∈ commands.CmdLists, ∀ r ∈ l.IdxBuffer,
      r < l.VtxBuffer.length) :
    ((UpdateView s commands io).vertex_data.take commands.TotalVtxCount =
        (commands.CmdLists.map ImDrawList.VtxBuffer).flatten ∧
      ((UpdateView s commands io).vertex_data.take
          commands.TotalVtxCount).length = commands.TotalVtxCount) ∧
      ((UpdateView s commands io).index_data.take commands.TotalIdxCount =
          reindexAll commands.CmdLists 0 0 ∧
        ((UpdateView s commands io).index_data.take
            commands.TotalIdxCount).length = commands.TotalIdxCount) ∧
      (∀ v ∈ (UpdateView s commands io).index_data.take
          commands.TotalIdxCount, v < commands.TotalVtxCount) ∧
      (commands.TotalVtxCount ≤ 2 ^ 16 →
        (UpdateView s commands io).index_data.take commands.TotalIdxCount =
          reindexAllExact commands.CmdLists 0) := by
  obtain ⟨hb1, hb2, h3, h4, -, -⟩ :=
    updateView_fields s commands io heng hnz hne
  set vd0 : List V :=
    (if s.vertex_buffer = none ∨
        capVal s.vertex_buffer < commands.TotalVtxCount
     then listResize s.vertex_data commands.TotalVtxCount default
     else s.vertex_data) with hvd0
  set idx0 : List Nat :=
    (if s.index_buffer = none ∨
        capVal s.index_buffer < commands.TotalIdxCount
     then listResize s.index_data commands.TotalIdxCount 0
     else s.index_data) with hidx0
  have hlenv : commands.TotalVtxCount ≤ vd0.length := by
    rw [hvd0]
    split_ifs with h
    · rw [listResize_length]
    · push_neg at h
      rw [hwf.1]
      omega
  have hleni : commands.TotalIdxCount ≤ idx0.length := by
    rw [hidx0]
    split_ifs with h
    · rw [listResize_length]
    · push_neg at h
      rw [hwf.2]
      omega
  have hsumv : (commands.CmdLists.map fun l => l.VtxBuffer.length).sum =
      commands.TotalVtxCount := rfl
  have hsumi : (commands.CmdLists.map fun l => l.IdxBuffer.length).sum =
      commands.TotalIdxCount := rfl
  obtain ⟨sp1, sp2, -, -, -, -, sp7, sp8⟩ :=
    copyLists_spec commands.CmdLists 0 0 0 vd0 idx0
      (by rw [hsumv]; omega) (by rw [hsumi]; omega)
  rw [List.drop_zero] at sp7 sp8
  rw [hsumv] at sp7
  rw [hsumi] at sp8
  have hv : (UpdateView s commands io).vertex_data.take
      commands.TotalVtxCount =
      (commands.CmdLists.map ImDrawList.VtxBuffer).flatten := by
    rw [h3, sp7]
  have hi : (UpdateView s commands io).index_data.take
      commands.TotalIdxCount = reindexAll commands.CmdLists 0 0 := by
    rw [h4, sp8]
  refine ⟨⟨hv, ?_⟩, ⟨hi, ?_⟩, ?_, ?_⟩
  · rw [h3, List.length_take, sp1]
    omega
  · rw [h4, List.length_take, sp2]
    omega
  · intro v hv2
    rw [hi] at hv2
    have := reindexAll_lt commands.CmdLists 0 0 hidx v hv2
    rw [hsumv] at this
    omega
  · intro hfit
    rw [hi]
    exact reindexAll_eq_exact commands.CmdLists 0 0 hidx
      (by rw [hsumv]; omega) (fun _ => rfl)

/-- Witness for C3 on two concrete command lists: the shared vertex span is
the concatenation and the second list's index is shifted by the first
list's vertex count. -/
theorem update_view_translation_witness :
    (UpdateView (⟨true, none, none, none, none, [], [], 0, 0⟩ : UiState Nat)
        (⟨[⟨[10, 20], [0, 1], 0⟩, ⟨[30], [0], 0⟩]⟩ : ImDrawData Nat)
        ⟨2, 2, 1, 1⟩).vertex_data.take
      ((⟨[⟨[10, 20], [0, 1], 0⟩, ⟨[30], [0], 0⟩]⟩ :
        ImDrawData Nat).TotalVtxCount) = [10, 20, 30] ∧
    (UpdateView (⟨true, none, none, none, none, [], [], 0, 0⟩ : UiState Nat)
        (⟨[⟨[10, 20], [0, 1], 0⟩, ⟨[30], [0], 0⟩]⟩ : ImDrawData Nat)
        ⟨2, 2, 1, 1⟩).index_data.take
      ((⟨[⟨[10, 20], [0, 1], 0⟩, ⟨[30], [0], 0⟩]⟩ :
        ImDrawData Nat).TotalIdxCount) = [0, 1, 2] := by
  have h := update_view_translation
    (⟨true, none, none, none, none, [], [], 0, 0⟩ : UiState Nat)
    (⟨[⟨[10, 20], [0, 1], 0⟩, ⟨[30], [0], 0⟩]⟩ : ImDrawData Nat)
    ⟨2, 2, 1, 1⟩ rfl (by norm_num) (by simp) ⟨rfl, rfl⟩ (by decide)
  constructor
  · rw [h.1.1]
    rfl
  · rw [h.2.1.1]
    rfl

end filament_imgui
